import Mathlib

/-!
Shallow embedding of the `headless-datepicker` repository: the keyboard
navigation hook `useDatePickerNavigation` from
`src/hooks/useDatePickerNavigation.ts`, and the compound export module that
assembles the public `Datepicker` value via `Object.assign`.

Calendar dates are modelled as (year, month, day) triples with the month
0-based, as in the JavaScript `Date` object the hook manipulates; the
`setDate` rollover rules of JavaScript are modelled as "first of the month
plus (n - 1) calendar days".
-/

/-- Gregorian leap-year test, as used by the JavaScript `Date` rollover rules
that `setDate` follows. -/
def isLeapYear (y : Int) : Bool :=
  y % 4 == 0 && (y % 100 != 0 || y % 400 == 0)

/-- Number of days of month `m` (0-based, as in JavaScript `Date`) of year
`y`.  Months at or above 11 fall through to the 31-day default, matching
December. -/
def daysInMonth (y : Int) (m : Nat) : Nat :=
  if m = 1 then (if isLeapYear y then 29 else 28)
  else if m = 3 ∨ m = 5 ∨ m = 8 ∨ m = 10 then 30
  else 31

/-- A calendar date as held by a JavaScript `Date` object, with the time of
day abstracted away: `month` is 0-based as in JavaScript. -/
structure JSDate where
  year : Int
  month : Nat
  day : Nat
deriving DecidableEq, Repr

/-- The in-range condition every real JavaScript `Date` value satisfies:
month between 0 and 11, day between 1 and the length of that month. -/
def JSDate.Valid : JSDate → Prop
  | ⟨y, m, day⟩ => m ≤ 11 ∧ 1 ≤ day ∧ day ≤ daysInMonth y m

instance (d : JSDate) : Decidable d.Valid := by
  obtain ⟨y, m, day⟩ := d
  unfold JSDate.Valid
  infer_instance

/-- The calendar day after `d`, with standard month/year rollover. -/
def nextDay : JSDate → JSDate
  | ⟨y, m, day⟩ =>
    if day < daysInMonth y m then ⟨y, m, day + 1⟩
    else if m < 11 then ⟨y, m + 1, 1⟩
    else ⟨y + 1, 0, 1⟩

/-- The calendar day before `d`, with standard month/year rollover. -/
def prevDay : JSDate → JSDate
  | ⟨y, m, day⟩ =>
    if 2 ≤ day then ⟨y, m, day - 1⟩
    else if 1 ≤ m then ⟨y, m - 1, daysInMonth y (m - 1)⟩
    else ⟨y - 1, 11, daysInMonth (y - 1) 11⟩

/-- `d` shifted by `k` calendar days (the specification-level notion of
calendar-day arithmetic with standard rollover). -/
def addDays (d : JSDate) (k : Int) : JSDate :=
  if 0 ≤ k then nextDay^[k.toNat] d else prevDay^[(-k).toNat] d

/-- JavaScript `Date.prototype.setDate n`: the day-of-month field is set to
`n`, with out-of-range values (including 0 and negatives) rolling over into
adjacent months; equivalently, the first of the current month plus `n - 1`
calendar days. -/
def JSDate.setDate (d : JSDate) (n : Int) : JSDate :=
  addDays ⟨d.year, d.month, 1⟩ (n - 1)

theorem le_daysInMonth (y : Int) (m : Nat) : 28 ≤ daysInMonth y m := by
  unfold daysInMonth
  split_ifs <;> omega

theorem nextDay_valid {d : JSDate} (h : d.Valid) : (nextDay d).Valid := by
  obtain ⟨y, m, day⟩ := d
  obtain ⟨hm, hd1, hd2⟩ := h
  simp only [nextDay]
  split_ifs with h1 h2
  · exact ⟨hm, by omega, by omega⟩
  · exact ⟨by omega, by omega, by have := le_daysInMonth y (m + 1); omega⟩
  · exact ⟨by omega, by omega, by have := le_daysInMonth (y + 1) 0; omega⟩

theorem prevDay_valid {d : JSDate} (h : d.Valid) : (prevDay d).Valid := by
  obtain ⟨y, m, day⟩ := d
  obtain ⟨hm, hd1, hd2⟩ := h
  simp only [prevDay]
  split_ifs with h1 h2
  · exact ⟨hm, by omega, by omega⟩
  · exact ⟨by omega, by have := le_daysInMonth y (m - 1); omega, le_refl _⟩
  · exact ⟨by omega, by have := le_daysInMonth (y - 1) 11; omega, le_refl _⟩

theorem prevDay_nextDay {d : JSDate} (h : d.Valid) : prevDay (nextDay d) = d := by
  obtain ⟨y, m, day⟩ := d
  obtain ⟨hm, hd1, hd2⟩ := h
  simp only [nextDay]
  split_ifs with h1 h2
  · simp only [prevDay]
    rw [if_pos (by omega : 2 ≤ day + 1)]
    exact congrArg (JSDate.mk y m) (by omega)
  · simp only [prevDay]
    rw [if_neg (by omega : ¬ 2 ≤ 1), if_pos (by omega : 1 ≤ m + 1)]
    rw [show m + 1 - 1 = m from by omega]
    exact congrArg (JSDate.mk y m) (by omega)
  · have hm11 : m = 11 := by omega
    subst hm11
    simp only [prevDay]
    rw [if_neg (by omega : ¬ 2 ≤ 1), if_neg (by omega : ¬ (1:Nat) ≤ 0)]
    rw [show y + 1 - 1 = y from by omega]
    exact congrArg (JSDate.mk y 11) (by omega)

theorem nextDay_prevDay {d : JSDate} (h : d.Valid) : nextDay (prevDay d) = d := by
  obtain ⟨y, m, day⟩ := d
  obtain ⟨hm, hd1, hd2⟩ := h
  simp only [prevDay]
  split_ifs with h1 h2
  · simp only [nextDay]
    rw [if_pos (by omega : day - 1 < daysInMonth y m)]
    exact congrArg (JSDate.mk y m) (by omega)
  · simp only [nextDay]
    rw [if_neg (by omega : ¬ daysInMonth y (m - 1) < daysInMonth y (m - 1)),
        if_pos (by omega : m - 1 < 11)]
    simp only [JSDate.mk.injEq]
    exact ⟨trivial, by omega, by omega⟩
  · simp only [nextDay]
    rw [if_neg (by omega : ¬ daysInMonth (y - 1) 11 < daysInMonth (y - 1) 11),
        if_neg (by omega : ¬ (11:Nat) < 11)]
    simp only [JSDate.mk.injEq]
    exact ⟨by omega, by omega, by omega⟩

theorem iterate_nextDay_valid {d : JSDate} (h : d.Valid) (n : Nat) :
    (nextDay^[n] d).Valid := by
  induction n with
  | zero => simpa using h
  | succ n ih =>
      rw [Function.iterate_succ_apply']
      exact nextDay_valid ih

theorem iterate_prevDay_valid {d : JSDate} (h : d.Valid) (n : Nat) :
    (prevDay^[n] d).Valid := by
  induction n with
  | zero => simpa using h
  | succ n ih =>
      rw [Function.iterate_succ_apply']
      exact prevDay_valid ih

theorem iterate_nextDay_first (y : Int) (m : Nat) (t : Nat)
    (h : t + 1 ≤ daysInMonth y m) :
    nextDay^[t] ⟨y, m, 1⟩ = ⟨y, m, t + 1⟩ := by
  induction t with
  | zero => rfl
  | succ t ih =>
      rw [Function.iterate_succ_apply', ih (by omega)]
      simp only [nextDay]
      rw [if_pos (by omega : t + 1 < daysInMonth y m)]

theorem addDays_natCast (d : JSDate) (n : Nat) : addDays d (n : Int) = nextDay^[n] d := by
  unfold addDays
  rw [if_pos (by omega : (0:Int) ≤ (n : Int))]
  congr 1

theorem addDays_neg_natCast (d : JSDate) (n : Nat) :
    addDays d (-(n : Int)) = prevDay^[n] d := by
  cases n with
  | zero => rfl
  | succ n =>
      unfold addDays
      rw [if_neg (by omega : ¬ (0:Int) ≤ -((n + 1 : Nat) : Int))]
      congr 1

theorem prevDay_iterate_nextDay {e : JSDate} (h : e.Valid) :
    ∀ j n : Nat, prevDay^[j] (nextDay^[n] e) = addDays e ((n : Int) - (j : Int)) := by
  intro j
  induction j with
  | zero =>
      intro n
      simp only [Function.iterate_zero_apply, Int.sub_zero]
      exact (addDays_natCast e n).symm
  | succ j ih =>
      intro n
      cases n with
      | zero =>
          simp only [Function.iterate_zero_apply]
          rw [show ((0:Nat) : Int) - ((j + 1 : Nat) : Int) = -((j + 1 : Nat) : Int) from by omega]
          exact (addDays_neg_natCast e (j + 1)).symm
      | succ m =>
          rw [Function.iterate_succ_apply prevDay j, Function.iterate_succ_apply' nextDay m,
              prevDay_nextDay (iterate_nextDay_valid h m), ih m]
          congr 1
          omega

theorem iterate_nextDay_iterate_prevDay (n : Nat) :
    ∀ {d : JSDate}, d.Valid → nextDay^[n] (prevDay^[n] d) = d := by
  induction n with
  | zero => intro d _; rfl
  | succ n ih =>
      intro d h
      rw [Function.iterate_succ_apply prevDay n, Function.iterate_succ_apply' nextDay n,
          ih (prevDay_valid h), nextDay_prevDay h]

theorem addDays_first_add {e : JSDate} (hv : e.Valid) (n : Nat) (k : Int) :
    addDays e ((n : Int) + k) = addDays (nextDay^[n] e) k := by
  rcases le_or_lt 0 k with hk | hk
  · unfold addDays
    rw [if_pos (by omega : (0:Int) ≤ (n : Int) + k), if_pos hk,
        ← Function.iterate_add_apply]
    congr 1
    omega
  · have h2 : addDays (nextDay^[n] e) k = prevDay^[(-k).toNat] (nextDay^[n] e) := by
      unfold addDays
      rw [if_neg (by omega : ¬ (0:Int) ≤ k)]
    rw [h2, prevDay_iterate_nextDay hv ((-k).toNat) n]
    congr 1
    omega

theorem setDate_day_add {d : JSDate} (h : d.Valid) (k : Int) :
    d.setDate ((d.day : Int) + k) = addDays d k := by
  obtain ⟨y, m, day⟩ := d
  obtain ⟨hm, hd1, hd2⟩ := h
  have hfv : (⟨y, m, 1⟩ : JSDate).Valid :=
    ⟨hm, le_refl 1, by have := le_daysInMonth y m; omega⟩
  have hrec : nextDay^[day - 1] ⟨y, m, 1⟩ = ⟨y, m, day⟩ := by
    rw [iterate_nextDay_first y m (day - 1) (by omega)]
    exact congrArg (JSDate.mk y m) (by omega)
  show addDays ⟨y, m, 1⟩ (((day : Int) + k) - 1) = addDays ⟨y, m, day⟩ k
  rw [show ((day : Int) + k) - 1 = ((day - 1 : Nat) : Int) + k from by omega,
      addDays_first_add hfv (day - 1) k, hrec]

/-- Result of one `handleKeyDown` call: the value returned to the caller, the
focused-date state after the call has been committed, and whether the handler
ran `event.preventDefault()`. -/
structure KeyDownResult where
  returned : Option JSDate
  focusedAfter : JSDate
  preventedDefault : Bool
deriving DecidableEq, Repr

/-- `handleKeyDown` from `useDatePickerNavigation.ts`, as a function of the
current `focusedDate` state and the key of the event.  The source copies
`focusedDate` into `newFocusedDate`, and on an arrow key runs
`newFocusedDate.setDate(focusedDate.getDate() + k)` (the copy has the same
year and month, so this equals `setDate` on `focusedDate` itself), then runs
`event.preventDefault()` and commits `newFocusedDate`; Enter and Space return
the focused date unchanged; Escape and every other key return null and change
nothing. -/
def handleKeyDown (focusedDate : JSDate) (key : String) : KeyDownResult :=
  if key = "ArrowLeft" then
    ⟨none, focusedDate.setDate ((focusedDate.day : Int) - 1), true⟩
  else if key = "ArrowRight" then
    ⟨none, focusedDate.setDate ((focusedDate.day : Int) + 1), true⟩
  else if key = "ArrowUp" then
    ⟨none, focusedDate.setDate ((focusedDate.day : Int) - 7), true⟩
  else if key = "ArrowDown" then
    ⟨none, focusedDate.setDate ((focusedDate.day : Int) + 7), true⟩
  else if key = "Enter" ∨ key = " " then
    ⟨some focusedDate, focusedDate, false⟩
  else if key = "Escape" then
    ⟨none, focusedDate, false⟩
  else
    ⟨none, focusedDate, false⟩

/-- The record returned by `useDatePickerNavigation`: the current focused
date and the keydown handler closed over it. -/
structure NavHook where
  focusedDate : JSDate
  handleKeyDown : String → KeyDownResult

/-- `useDatePickerNavigation initialDate`: `useState(initialDate)` makes the
initial focused date the caller-supplied date, before any handler runs. -/
def useDatePickerNavigation (initialDate : JSDate) : NavHook :=
  ⟨initialDate, fun key => handleKeyDown initialDate key⟩

/-- A heap of JavaScript `Date` objects: a cell per allocated object, the
index into `cells` playing the role of the object reference. -/
structure DateHeap where
  cells : List JSDate
deriving DecidableEq, Repr

/-- Dereference a `Date` object (out-of-range references give a dummy). -/
def readRef : DateHeap → Nat → JSDate
  | ⟨cells⟩, r => cells.getD r ⟨0, 0, 1⟩

/-- Mutate the `Date` object behind reference `r` in place. -/
def writeRef : DateHeap → Nat → JSDate → DateHeap
  | ⟨cells⟩, r, v => ⟨cells.set r v⟩

/-- `new Date(v)`: allocate a fresh `Date` object, returning its reference. -/
def allocRef : DateHeap → JSDate → DateHeap × Nat
  | ⟨cells⟩, v => (⟨cells ++ [v]⟩, cells.length)

/-- Result of one `handleKeyDown` call in the heap model: the heap after the
call, the reference now held by the focused-date state, the returned
reference (null or a `Date` reference), and the `preventDefault` flag. -/
structure HeapKeyDownResult where
  heap : DateHeap
  focusedRef : Nat
  returnedRef : Option Nat
  preventedDefault : Bool
deriving DecidableEq, Repr

/-- `handleKeyDown` again, now at the level of object references, mirroring
the source statement by statement: `const newFocusedDate = new
Date(focusedDate)` allocates a copy before the switch; each arrow-key case
mutates that copy in place via `setDate` and commits its reference as the new
focused-date state; `Enter`/Space return the focused reference itself; Escape
and unrecognized keys return null, leaving the state reference alone. -/
def handleKeyDownHeap (h : DateHeap) (focusedRef : Nat) (key : String) :
    HeapKeyDownResult :=
  let focused := readRef h focusedRef
  let alloc := allocRef h focused
  let h1 := alloc.1
  let newRef := alloc.2
  if key = "ArrowLeft" then
    ⟨writeRef h1 newRef ((readRef h1 newRef).setDate ((focused.day : Int) - 1)),
      newRef, none, true⟩
  else if key = "ArrowRight" then
    ⟨writeRef h1 newRef ((readRef h1 newRef).setDate ((focused.day : Int) + 1)),
      newRef, none, true⟩
  else if key = "ArrowUp" then
    ⟨writeRef h1 newRef ((readRef h1 newRef).setDate ((focused.day : Int) - 7)),
      newRef, none, true⟩
  else if key = "ArrowDown" then
    ⟨writeRef h1 newRef ((readRef h1 newRef).setDate ((focused.day : Int) + 7)),
      newRef, none, true⟩
  else if key = "Enter" ∨ key = " " then
    ⟨h1, focusedRef, some focusedRef, false⟩
  else if key = "Escape" then
    ⟨h1, focusedRef, none, false⟩
  else
    ⟨h1, focusedRef, none, false⟩

/-- Object identity of the `Button` component as imported directly from
`./button/Button`.  The component implementations themselves are opaque to
the export module; only their identities matter to the assembly, so each is
modelled as a distinct abstract token. -/
def ButtonImpl : Nat := 0

/-- Object identity of the `Input` component imported from `./input/Input`. -/
def InputImpl : Nat := 1

/-- Object identity of the `Item` component imported from `./item/Item`. -/
def ItemImpl : Nat := 2

/-- Object identity of the `Items` component imported from `./items/Items`. -/
def ItemsImpl : Nat := 3

/-- Object identity of the `Picker` component imported from
`./picker/Picker`. -/
def PickerImpl : Nat := 4

/-- Object identity of the `Provider` component imported from
`./provider/Provider`. -/
def ProviderImpl : Nat := 5

/-- A heap of JavaScript objects for the export module: each object identity
maps to its list of own properties (property name paired with the object
identity of the value), later entries shadowing earlier ones. -/
structure ObjHeap where
  props : Nat → List (String × Nat)

/-- Property lookup on object `r`: the most recent assignment wins. -/
def getProp (h : ObjHeap) (r : Nat) (name : String) : Option Nat :=
  ((h.props r).reverse.find? (fun p => p.1 == name)).map (fun p => p.2)

/-- Set one own property on object `r`, in place. -/
def setProp (h : ObjHeap) (r : Nat) (name : String) (v : Nat) : ObjHeap :=
  ⟨fun s => if s = r then h.props r ++ [(name, v)] else h.props s⟩

/-- `Object.assign(target, source)`: copies every source property onto the
`target` object in order, mutating it in place, and evaluates to the identity
of `target` itself (not a wrapper). -/
def objectAssign (h : ObjHeap) (target : Nat) (source : List (String × Nat)) :
    ObjHeap × Nat :=
  (source.foldl (fun acc p => setProp acc target p.1 p.2) h, target)

/-- The heap before the export module runs: no component object carries
attached sub-component properties yet. -/
def initialHeap : ObjHeap := ⟨fun _ => []⟩

/-- Evaluation of the export module statement
`const Datepicker = Object.assign(Provider, { Picker, Input, Button, Items,
Item })`, yielding the mutated heap and the value bound to `Datepicker`. -/
def datepickerModule : ObjHeap × Nat :=
  objectAssign initialHeap ProviderImpl
    [("Picker", PickerImpl), ("Input", InputImpl), ("Button", ButtonImpl),
     ("Items", ItemsImpl), ("Item", ItemImpl)]

/-- The object heap after the export module has run. -/
def moduleHeap : ObjHeap := datepickerModule.1

/-- The exported `Datepicker` value: an object identity. -/
def Datepicker : Nat := datepickerModule.2

theorem getD_append_lt {α : Type} (l l2 : List α) (r : Nat) (hlt : r < l.length)
    (d0 : α) : (l ++ l2).getD r d0 = l.getD r d0 := by
  induction l generalizing r with
  | nil => simp at hlt
  | cons x xs ih =>
      cases r with
      | zero => rfl
      | succ r =>
          simp only [List.cons_append, List.getD_cons_succ]
          exact ih r (by simpa using hlt)

theorem getD_append_length {α : Type} (l : List α) (v d0 : α) :
    (l ++ [v]).getD l.length d0 = v := by
  induction l with
  | nil => rfl
  | cons x xs ih =>
      simp only [List.cons_append, List.length_cons, List.getD_cons_succ]
      exact ih

theorem set_append_length {α : Type} (l : List α) (a v : α) :
    (l ++ [a]).set l.length v = l ++ [v] := by
  induction l with
  | nil => rfl
  | cons x xs ih =>
      show x :: ((xs ++ [a]).set xs.length v) = x :: (xs ++ [v])
      rw [ih]

theorem handleKeyDown_arrowLeft (D : JSDate) :
    handleKeyDown D "ArrowLeft" = ⟨none, D.setDate ((D.day : Int) - 1), true⟩ :=
  rfl

theorem handleKeyDown_arrowRight (D : JSDate) :
    handleKeyDown D "ArrowRight" = ⟨none, D.setDate ((D.day : Int) + 1), true⟩ :=
  rfl

theorem handleKeyDown_arrowUp (D : JSDate) :
    handleKeyDown D "ArrowUp" = ⟨none, D.setDate ((D.day : Int) - 7), true⟩ :=
  rfl

theorem handleKeyDown_arrowDown (D : JSDate) :
    handleKeyDown D "ArrowDown" = ⟨none, D.setDate ((D.day : Int) + 7), true⟩ :=
  rfl

theorem focusedAfter_arrowLeft (D : JSDate) :
    (handleKeyDown D "ArrowLeft").focusedAfter = D.setDate ((D.day : Int) - 1) :=
  rfl

theorem focusedAfter_arrowRight (D : JSDate) :
    (handleKeyDown D "ArrowRight").focusedAfter = D.setDate ((D.day : Int) + 1) :=
  rfl

theorem focusedAfter_arrowUp (D : JSDate) :
    (handleKeyDown D "ArrowUp").focusedAfter = D.setDate ((D.day : Int) - 7) :=
  rfl

theorem focusedAfter_arrowDown (D : JSDate) :
    (handleKeyDown D "ArrowDown").focusedAfter = D.setDate ((D.day : Int) + 7) :=
  rfl

/-- Claim C1: for every focused date D, `handleKeyDown` with "ArrowLeft"
sets the focused-date state to D minus one calendar day, "ArrowRight" to D
plus one, "ArrowUp" to D minus seven, "ArrowDown" to D plus seven, with
standard month/year rollover, and each of the four calls returns null. -/
theorem claim_arrow_keys_move_by_days (D : JSDate) (h : D.Valid) :
    handleKeyDown D "ArrowLeft" = ⟨none, addDays D (-1), true⟩ ∧
    handleKeyDown D "ArrowRight" = ⟨none, addDays D 1, true⟩ ∧
    handleKeyDown D "ArrowUp" = ⟨none, addDays D (-7), true⟩ ∧
    handleKeyDown D "ArrowDown" = ⟨none, addDays D 7, true⟩ := by
  refine ⟨?_, ?_, ?_, ?_⟩
  · have e : handleKeyDown D "ArrowLeft"
        = ⟨none, D.setDate ((D.day : Int) - 1), true⟩ := rfl
    rw [e, show (D.day : Int) - 1 = (D.day : Int) + (-1) from by ring, setDate_day_add h]
  · have e : handleKeyDown D "ArrowRight"
        = ⟨none, D.setDate ((D.day : Int) + 1), true⟩ := rfl
    rw [e, setDate_day_add h]
  · have e : handleKeyDown D "ArrowUp"
        = ⟨none, D.setDate ((D.day : Int) - 7), true⟩ := rfl
    rw [e, show (D.day : Int) - 7 = (D.day : Int) + (-7) from by ring, setDate_day_add h]
  · have e : handleKeyDown D "ArrowDown"
        = ⟨none, D.setDate ((D.day : Int) + 7), true⟩ := rfl
    rw [e, setDate_day_add h]

/-- Witness for C1 at 31 January 2025 (month 0 is January): "ArrowRight"
rolls over to 1 February, as standard calendar rules require. -/
theorem claim_arrow_keys_move_by_days_witness :
    (⟨2025, 0, 31⟩ : JSDate).Valid ∧
    handleKeyDown ⟨2025, 0, 31⟩ "ArrowRight" = ⟨none, ⟨2025, 1, 1⟩, true⟩ :=
  ⟨by decide, by
    have h := (claim_arrow_keys_move_by_days ⟨2025, 0, 31⟩ (by decide)).2.1
    rw [h]
    decide⟩

/-- Claim C2: for every focused date D, "Enter" and " " (Space) return D
itself as the activated date and leave the focused-date state unchanged. -/
theorem claim_enter_space_return_focused (D : JSDate) :
    handleKeyDown D "Enter" = ⟨some D, D, false⟩ ∧
    handleKeyDown D " " = ⟨some D, D, false⟩ :=
  ⟨rfl, rfl⟩

/-- Claim C3: for every initial date D, constructing the navigation hook
yields `focusedDate = D` immediately, before any handler invocation. -/
theorem claim_initial_focused_date (D : JSDate) :
    (useDatePickerNavigation D).focusedDate = D :=
  rfl

/-- Claim C4: for every focused date, "Escape" returns null and leaves the
focused-date state unchanged; the result record shows the hook performs no
further action on this branch (closing is handed off to the caller). -/
theorem claim_escape_returns_null (D : JSDate) :
    handleKeyDown D "Escape" = ⟨none, D, false⟩ :=
  rfl

/-- Claim C5: for every focused date and every key outside the seven
recognized ones, `handleKeyDown` returns null and leaves the state
unchanged: a silent no-op, not an error. -/
theorem claim_unrecognized_key_noop (D : JSDate) (key : String)
    (h : key ∉ (["ArrowLeft", "ArrowRight", "ArrowUp", "ArrowDown",
      "Enter", " ", "Escape"] : List String)) :
    handleKeyDown D key = ⟨none, D, false⟩ := by
  simp only [List.mem_cons, List.not_mem_nil, or_false, not_or] at h
  obtain ⟨h1, h2, h3, h4, h5, h6, h7⟩ := h
  unfold handleKeyDown
  rw [if_neg h1, if_neg h2, if_neg h3, if_neg h4,
      if_neg (show ¬ (key = "Enter" ∨ key = " ") from fun hc => hc.elim h5 h6),
      if_neg h7]

/-- Witness for C5: the key "a" with a concrete focused date. -/
theorem claim_unrecognized_key_noop_witness :
    ("a" ∉ (["ArrowLeft", "ArrowRight", "ArrowUp", "ArrowDown",
      "Enter", " ", "Escape"] : List String)) ∧
    handleKeyDown ⟨2024, 5, 10⟩ "a" = ⟨none, ⟨2024, 5, 10⟩, false⟩ :=
  ⟨by decide, claim_unrecognized_key_noop ⟨2024, 5, 10⟩ "a" (by decide)⟩

/-- Claim C6: `handleKeyDown` runs `event.preventDefault()` exactly when the
key is one of the four movement keys, and for no other key. -/
theorem claim_preventDefault_iff_movement (D : JSDate) (key : String) :
    (handleKeyDown D key).preventedDefault = true ↔
      key = "ArrowLeft" ∨ key = "ArrowRight" ∨ key = "ArrowUp" ∨ key = "ArrowDown" := by
  unfold handleKeyDown
  split_ifs with h1 h2 h3 h4 h5 h6 <;> simp_all

/-- Claim C7: for every key and focused date, `handleKeyDown` never mutates
the `Date` object currently held as the focused-date state: the object behind
the old state reference reads the same after the call; the value behind the
resulting state reference is exactly the pure-model result (day arithmetic
done on the freshly allocated copy); and whenever the state reference
changes, the new reference is the freshly allocated copy. -/
theorem claim_no_mutation_of_focused_date (h : DateHeap) (r : Nat) (key : String)
    (hr : r < h.cells.length) :
    readRef (handleKeyDownHeap h r key).heap r = readRef h r ∧
    readRef (handleKeyDownHeap h r key).heap (handleKeyDownHeap h r key).focusedRef =
      (handleKeyDown (readRef h r) key).focusedAfter ∧
    ((handleKeyDownHeap h r key).focusedRef ≠ r →
      (handleKeyDownHeap h r key).focusedRef = h.cells.length) := by
  obtain ⟨cells⟩ := h
  have hr2 : r < cells.length := hr
  simp only [handleKeyDownHeap, handleKeyDown, allocRef, readRef, writeRef]
  split_ifs with h1 h2 h3 h4 h5 h6 <;>
    refine ⟨?_, ?_, ?_⟩ <;>
    simp only [set_append_length] <;>
    first
      | exact getD_append_lt cells _ r hr2 _
      | (rw [getD_append_length, getD_append_length])
      | (intro hc; trivial)

/-- Witness for C7: a one-cell heap holding 15 June 2024, key "ArrowRight". -/
theorem claim_no_mutation_of_focused_date_witness :
    0 < (⟨[⟨2024, 5, 15⟩]⟩ : DateHeap).cells.length ∧
    (readRef (handleKeyDownHeap ⟨[⟨2024, 5, 15⟩]⟩ 0 "ArrowRight").heap 0 =
        readRef ⟨[⟨2024, 5, 15⟩]⟩ 0 ∧
      readRef (handleKeyDownHeap ⟨[⟨2024, 5, 15⟩]⟩ 0 "ArrowRight").heap
          (handleKeyDownHeap ⟨[⟨2024, 5, 15⟩]⟩ 0 "ArrowRight").focusedRef =
        (handleKeyDown (readRef ⟨[⟨2024, 5, 15⟩]⟩ 0) "ArrowRight").focusedAfter ∧
      ((handleKeyDownHeap ⟨[⟨2024, 5, 15⟩]⟩ 0 "ArrowRight").focusedRef ≠ 0 →
        (handleKeyDownHeap ⟨[⟨2024, 5, 15⟩]⟩ 0 "ArrowRight").focusedRef =
          (⟨[⟨2024, 5, 15⟩]⟩ : DateHeap).cells.length)) :=
  ⟨by decide, claim_no_mutation_of_focused_date ⟨[⟨2024, 5, 15⟩]⟩ 0 "ArrowRight" (by decide)⟩

/-- Claim C9: "ArrowLeft" then "ArrowRight" (and "ArrowUp" then "ArrowDown")
return the focused-date state to the original date D. -/
theorem claim_opposite_arrows_inverse (D : JSDate) (h : D.Valid) :
    (handleKeyDown (handleKeyDown D "ArrowLeft").focusedAfter "ArrowRight").focusedAfter
      = D ∧
    (handleKeyDown (handleKeyDown D "ArrowUp").focusedAfter "ArrowDown").focusedAfter
      = D := by
  constructor
  · have hL : D.setDate ((D.day : Int) - 1) = prevDay^[1] D := by
      rw [show (D.day : Int) - 1 = (D.day : Int) + (-((1:Nat) : Int)) from by push_cast; ring,
          setDate_day_add h, addDays_neg_natCast]
    rw [focusedAfter_arrowLeft D, hL]
    have hv : (prevDay^[1] D).Valid := iterate_prevDay_valid h 1
    have hR : (prevDay^[1] D).setDate (((prevDay^[1] D).day : Int) + 1)
        = nextDay^[1] (prevDay^[1] D) := by
      rw [show ((prevDay^[1] D).day : Int) + 1
            = ((prevDay^[1] D).day : Int) + ((1:Nat) : Int) from by push_cast; ring,
          setDate_day_add hv, addDays_natCast]
    rw [focusedAfter_arrowRight (prevDay^[1] D), hR]
    exact iterate_nextDay_iterate_prevDay 1 h
  · have hU : D.setDate ((D.day : Int) - 7) = prevDay^[7] D := by
      rw [show (D.day : Int) - 7 = (D.day : Int) + (-((7:Nat) : Int)) from by push_cast; ring,
          setDate_day_add h, addDays_neg_natCast]
    rw [focusedAfter_arrowUp D, hU]
    have hv : (prevDay^[7] D).Valid := iterate_prevDay_valid h 7
    have hD : (prevDay^[7] D).setDate (((prevDay^[7] D).day : Int) + 7)
        = nextDay^[7] (prevDay^[7] D) := by
      rw [show ((prevDay^[7] D).day : Int) + 7
            = ((prevDay^[7] D).day : Int) + ((7:Nat) : Int) from by push_cast; ring,
          setDate_day_add hv, addDays_natCast]
    rw [focusedAfter_arrowDown (prevDay^[7] D), hD]
    exact iterate_nextDay_iterate_prevDay 7 h

/-- Witness for C9 at 1 March 2024 (month 2 is March), where the round trips
cross the February boundary of a leap year. -/
theorem claim_opposite_arrows_inverse_witness :
    (⟨2024, 2, 1⟩ : JSDate).Valid ∧
    ((handleKeyDown (handleKeyDown ⟨2024, 2, 1⟩ "ArrowLeft").focusedAfter
        "ArrowRight").focusedAfter = (⟨2024, 2, 1⟩ : JSDate) ∧
      (handleKeyDown (handleKeyDown ⟨2024, 2, 1⟩ "ArrowUp").focusedAfter
        "ArrowDown").focusedAfter = (⟨2024, 2, 1⟩ : JSDate)) :=
  ⟨by decide, claim_opposite_arrows_inverse ⟨2024, 2, 1⟩ (by decide)⟩

/-- Claim C8: the sub-component references attached to the assembled public
export (`Datepicker.Picker`, `.Input`, `.Button`, `.Items`, `.Item`) are each
the very implementation obtained by importing that sub-component directly:
the assembly is a pure re-export. -/
theorem claim_subcomponents_equal_direct_imports :
    getProp moduleHeap Datepicker "Button" = some ButtonImpl ∧
    getProp moduleHeap Datepicker "Input" = some InputImpl ∧
    getProp moduleHeap Datepicker "Picker" = some PickerImpl ∧
    getProp moduleHeap Datepicker "Items" = some ItemsImpl ∧
    getProp moduleHeap Datepicker "Item" = some ItemImpl := by
  refine ⟨?_, ?_, ?_, ?_, ?_⟩ <;> rfl

/-- Claim C10: `Object.assign` mutates `Provider` in place, so the exported
`Datepicker` is the very same object as `Provider` (identical identity, not a
wrapper), and that one object carries the five attached sub-component
properties, visible through the `Provider` identity itself. -/
theorem claim_datepicker_is_provider :
    Datepicker = ProviderImpl ∧
    getProp moduleHeap ProviderImpl "Picker" = some PickerImpl ∧
    getProp moduleHeap ProviderImpl "Input" = some InputImpl ∧
    getProp moduleHeap ProviderImpl "Button" = some ButtonImpl ∧
    getProp moduleHeap ProviderImpl "Items" = some ItemsImpl ∧
    getProp moduleHeap ProviderImpl "Item" = some ItemImpl := by
  refine ⟨?_, ?_, ?_, ?_, ?_, ?_⟩ <;> rfl
